import Mathlib

/- Shallow embedding of the lung-listener timeline / playback core.

   Sources embedded below:
   * src/components/TimelineTrack.tsx - the three-phase viewport/scroll
     computation (scrollLeft, cursorLeft);
   * src/unnamed/part_009 (CenterStage) - the master-clock handlers
     (handleSeek, handleZoomIn, handleZoomOut), the per-track volume
     expressions and the AI timestamp parsing effect;
   * src/unnamed/part_005 (LabelControlZone) - parseLabelString, the
     clinical label parser;
   * src/unnamed/part_006 (MasterControls) - volume/seek widget bounds.

   JS numbers are modelled as rationals (all quantities involved are
   produced by finitely many exact arithmetic operations on user-scale
   values, where IEEE doubles behave like exact arithmetic for the
   properties at issue); JS strings are modelled as lists of characters. -/

/-- Inputs of the viewport computation in TimelineTrack: the props
`currentTime`, `zoomLevel`, `duration` and the measured `containerWidth`. -/
structure ViewportInput where
  currentTime : ℚ
  zoomLevel : ℚ
  duration : ℚ
  containerWidth : ℚ
deriving DecidableEq

/-- JS `Math.max` on two (non-NaN) numbers. -/
def jsMax (a b : ℚ) : ℚ := if a ≤ b then b else a

/-- JS `Math.min` on two (non-NaN) numbers. -/
def jsMin (a b : ℚ) : ℚ := if a ≤ b then a else b

/-- TimelineTrack: `const currentPixel = currentTime * zoomLevel;` -/
def currentPixel (i : ViewportInput) : ℚ := i.currentTime * i.zoomLevel

/-- TimelineTrack: `const contentWidth = duration * zoomLevel;` -/
def contentWidth (i : ViewportInput) : ℚ := i.duration * i.zoomLevel

/-- TimelineTrack: `const totalScrollableWidth = Math.max(containerWidth, contentWidth);` -/
def totalScrollableWidth (i : ViewportInput) : ℚ :=
  jsMax i.containerWidth (contentWidth i)

/-- TimelineTrack: `const maxScroll = Math.max(0, totalScrollableWidth - containerWidth);` -/
def maxScroll (i : ViewportInput) : ℚ :=
  jsMax 0 (totalScrollableWidth i - i.containerWidth)

/-- TimelineTrack: `const halfWidth = containerWidth / 2;` -/
def halfWidth (i : ViewportInput) : ℚ := i.containerWidth / 2

/-- The three-phase branch of TimelineTrack computing the pair
`(scrollLeft, cursorLeft)` before the final rounding of `scrollLeft`:
phase 1 (beginning) if `currentPixel < halfWidth`, phase 3 (end) if
`currentPixel > totalScrollableWidth - halfWidth`, phase 2 (middle)
otherwise. -/
def scrollCursor (i : ViewportInput) : ℚ × ℚ :=
  if currentPixel i < halfWidth i then
    (0, currentPixel i)
  else if currentPixel i > totalScrollableWidth i - halfWidth i then
    (maxScroll i, currentPixel i - maxScroll i)
  else
    (currentPixel i - halfWidth i, halfWidth i)

/-- JS `Math.round`: round to the nearest integer, halves toward plus
infinity, i.e. `Math.round(x) = floor(x + 1/2)`. -/
def jsRound (x : ℚ) : ℤ := ⌊x + 1/2⌋

/-- TimelineTrack: `scrollLeft = Math.round(scrollLeft);` applied to the
branch result - the scroll offset actually used for rendering. -/
def scrollLeftPx (i : ViewportInput) : ℤ := jsRound (scrollCursor i).1

/-- The playhead position used for rendering (not rounded in the source). -/
def cursorLeftPx (i : ViewportInput) : ℚ := (scrollCursor i).2

/-- The cursor assignment of the phase-1 branch: `cursorLeft = currentPixel;` -/
def cursorStartPhase (i : ViewportInput) : ℚ := currentPixel i

/-- The cursor assignment of the phase-2 branch: `cursorLeft = halfWidth;` -/
def cursorMiddlePhase (i : ViewportInput) : ℚ := halfWidth i

/-- The cursor assignment of the phase-3 branch: `cursorLeft = currentPixel - maxScroll;` -/
def cursorEndPhase (i : ViewportInput) : ℚ := currentPixel i - maxScroll i

/-- Input showing that the final rounding can push `scrollLeftPx` above a
fractional `maxScroll`: an 800 px container at 50 px/sec over a
16.61 s file, with the playhead at the end of the file. -/
def viewportCex : ViewportInput :=
  { currentTime := 1661/100, zoomLevel := 50, duration := 1661/100, containerWidth := 800 }

/-- Boundary input for the start-to-middle transition: `currentPixel = halfWidth = 1`. -/
def boundaryStartMiddle : ViewportInput :=
  { currentTime := 1, zoomLevel := 1, duration := 10, containerWidth := 2 }

/-- Boundary input for the middle-to-end transition:
`currentPixel = totalScrollableWidth - halfWidth = 9`. -/
def boundaryMiddleEnd : ViewportInput :=
  { currentTime := 9, zoomLevel := 1, duration := 10, containerWidth := 2 }

/-- The master-clock state of CenterStage (part_009): the playback and zoom
fields held in React state (`isPlaying`, `currentTime`, `duration`,
`volume`, `isMuted`, `zoomLevel`, `seekTarget`). -/
structure ClockState where
  isPlaying : Bool
  currentTime : ℚ
  duration : ℚ
  volume : ℚ
  isMuted : Bool
  zoomLevel : ℚ
  seekTarget : Option ℚ

/-- CenterStage: `const handleSeek = (time) => { setSeekTarget(time); setCurrentTime(time); };` -/
def handleSeek (s : ClockState) (time : ℚ) : ClockState :=
  { s with seekTarget := some time, currentTime := time }

/-- CenterStage: `const handleZoomIn = () => setZoomLevel(prev => Math.min(prev + 50, 500));` -/
def handleZoomIn (s : ClockState) : ClockState :=
  { s with zoomLevel := jsMin (s.zoomLevel + 50) 500 }

/-- CenterStage: `const handleZoomOut = () => setZoomLevel(prev => Math.max(prev - 50, 10));` -/
def handleZoomOut (s : ClockState) : ClockState :=
  { s with zoomLevel := jsMax (s.zoomLevel - 50) 10 }

/-- A concrete clock state for a loaded 10-second file. -/
def tenSecondClock : ClockState :=
  { isPlaying := false, currentTime := 0, duration := 10, volume := 1,
    isMuted := false, zoomLevel := 50, seekTarget := none }

/-- CenterStage: `const [activeAudioSource, setActiveAudioSource] = useState<'raw' | 'filtered'>('raw');` -/
inductive AudioSource where
  | raw : AudioSource
  | filtered : AudioSource
deriving DecidableEq

/-- CenterStage, `volume` prop of the raw WaveformTrack:
`volume={activeAudioSource === 'raw' ? (isMuted ? 0 : volume) : 0}`. -/
def rawTrackVolume (activeAudioSource : AudioSource) (isMuted : Bool) (volume : ℚ) : ℚ :=
  if activeAudioSource = AudioSource.raw then (if isMuted then 0 else volume) else 0

/-- CenterStage, `volume` prop of the filtered WaveformTrack:
`volume={activeAudioSource === 'filtered' ? (isMuted ? 0 : volume) : 0}`. -/
def filteredTrackVolume (activeAudioSource : AudioSource) (isMuted : Bool) (volume : ℚ) : ℚ :=
  if activeAudioSource = AudioSource.filtered then (if isMuted then 0 else volume) else 0

/-- ASCII digit test (JS regex `\d` and the digit prefixes consumed by
`parseFloat` / `parseInt` are ASCII-only): code points 48..57. -/
def isDigitChar (c : Char) : Bool := decide (48 ≤ c.toNat ∧ c.toNat ≤ 57)

/-- The JS whitespace class: the characters matched by `\s` and stripped by
`String.trim` (tab, LF, VT, FF, CR, space, NBSP, Ogham space, the Unicode
space separators U+2000..U+200A, LS, PS, NNBSP, MMSP, ideographic space and
the BOM). -/
def jsSpace (c : Char) : Bool :=
  decide (c.toNat = 9 ∨ c.toNat = 10 ∨ c.toNat = 11 ∨ c.toNat = 12 ∨ c.toNat = 13 ∨
    c.toNat = 32 ∨ c.toNat = 160 ∨ c.toNat = 0x1680 ∨
    (0x2000 ≤ c.toNat ∧ c.toNat ≤ 0x200a) ∨ c.toNat = 0x2028 ∨ c.toNat = 0x2029 ∨
    c.toNat = 0x202f ∨ c.toNat = 0x205f ∨ c.toNat = 0xfeff)

/-- Value of a list of ASCII digit characters read in base 10. -/
def digitsToNat (l : List Char) : ℕ := l.foldl (fun a c => 10 * a + (c.toNat - 48)) 0

/-- JS `String.trim`: strip leading and trailing whitespace. -/
def jsTrim (l : List Char) : List Char :=
  ((l.dropWhile jsSpace).reverse.dropWhile jsSpace).reverse

/-- JS `text.split('\n')`: split at every newline, keeping empty pieces. -/
def splitNl : List Char → List (List Char)
  | [] => [[]]
  | c :: r =>
    if c = '\n' then [] :: splitNl r
    else
      match splitNl r with
      | f :: t => (c :: f) :: t
      | [] => [[c]]

/-- JS `line.split(/[\t\s]+/)`: split at maximal runs of whitespace,
producing an empty leading (resp. trailing) field when the string starts
(resp. ends) with whitespace, exactly as `String.split` with a
one-or-more-whitespace regex does. -/
def splitWs : List Char → List (List Char)
  | [] => [[]]
  | [c] => if jsSpace c then [[], []] else [[c]]
  | c :: c' :: r =>
    if jsSpace c then
      (if jsSpace c' then splitWs (c' :: r) else [] :: splitWs (c' :: r))
    else
      match splitWs (c' :: r) with
      | f :: t => (c :: f) :: t
      | [] => [[c]]

/-- The optional exponent suffix accepted by `parseFloat` (`e`/`E`, optional
sign, digits); a malformed exponent is ignored, i.e. contributes 0. -/
def expParts (l : List Char) : ℤ :=
  match l with
  | c :: r =>
    if c = 'e' ∨ c = 'E' then
      let sgn : ℤ × List Char :=
        match r with
        | '-' :: rr => (-1, rr)
        | '+' :: rr => (1, rr)
        | _ => (1, r)
      let ds := sgn.2.takeWhile isDigitChar
      if ds.isEmpty then 0 else sgn.1 * digitsToNat ds
    else 0
  | [] => 0

/-- The syntactic part of JS `parseFloat`: skip leading whitespace, read an
optional sign, a digit string, an optional fraction and an optional
exponent, ignoring any trailing garbage; `none` models `NaN` (no parse).
Returns `(sign, integer part, fraction value, fraction length, exponent)`.
(The `Infinity` literal and hexadecimal forms are not modelled; no value in
the claims involves them.) -/
def floatParts (l : List Char) : Option (ℤ × ℕ × ℕ × ℕ × ℤ) :=
  let l1 := l.dropWhile jsSpace
  let sgn : ℤ × List Char :=
    match l1 with
    | '-' :: r => (-1, r)
    | '+' :: r => (1, r)
    | _ => (1, l1)
  let ip := sgn.2.takeWhile isDigitChar
  let l3 := sgn.2.dropWhile isDigitChar
  let frac : Option (ℕ × ℕ × List Char) :=
    match l3 with
    | '.' :: r => some (digitsToNat (r.takeWhile isDigitChar),
        (r.takeWhile isDigitChar).length, r.dropWhile isDigitChar)
    | _ => none
  match frac with
  | some (fv, fl, l4) =>
    if ip.isEmpty && fl == 0 then none
    else some (sgn.1, digitsToNat ip, fv, fl, expParts l4)
  | none =>
    if ip.isEmpty then none else some (sgn.1, digitsToNat ip, 0, 0, expParts l3)

/-- Numeric value of the pieces returned by `floatParts`. -/
def assembleFloat (p : ℤ × ℕ × ℕ × ℕ × ℤ) : ℚ :=
  p.1 * ((p.2.1 : ℚ) + (p.2.2.1 : ℚ) / 10 ^ p.2.2.2.1) * 10 ^ p.2.2.2.2

/-- JS `parseFloat` on a (whitespace-free-field) string, as used by
`parseLabelString`; `none` models `NaN`. -/
def parseFloat (l : List Char) : Option ℚ :=
  (floatParts l).map assembleFloat

/-- JS `parseInt` with no radix argument on a decimal string: skip leading
whitespace, optional sign, then a nonempty digit prefix; `none` models
`NaN`. (The `0x` hexadecimal form is not modelled; no claim involves it.) -/
def parseInt (l : List Char) : Option ℤ :=
  let l1 := l.dropWhile jsSpace
  let sgn : ℤ × List Char :=
    match l1 with
    | '-' :: r => (-1, r)
    | '+' :: r => (1, r)
    | _ => (1, l1)
  let ds := sgn.2.takeWhile isDigitChar
  if ds.isEmpty then none else some (sgn.1 * digitsToNat ds)

/-- Region ids in the source are template strings
(`clinical-IDX-START-END-wheeze`, `clinical-IDX-START-END-crackle`,
`ai-region-START-END`) whose numeric components render injectively, so ids
are modelled by their components. -/
inductive RegionId where
  | clinicalWheeze (lineIdx : ℕ) (first last : ℚ) : RegionId
  | clinicalCrackle (lineIdx : ℕ) (first last : ℚ) : RegionId
  | aiRegion (first last : ℕ) : RegionId
deriving DecidableEq

/-- The RegionData interface (types.ts): an annotation interval. The source
field `end` is called `stop` here (`end` is a Lean keyword). -/
structure RegionData where
  id : RegionId
  start : ℚ
  stop : ℚ
  content : String
  color : String
deriving DecidableEq

/-- The body of the `lines.forEach((line, idx) => ...)` loop of
`parseLabelString` (part_005): skip blank lines, split on whitespace/tab
runs, require at least 4 fields, parse `start`, `end`, `crackles`,
`wheezes`, skip the line if `start` or `end` is NaN, then emit a Wheeze
region if `wheezes === 1` and a Crackle region if `crackles === 1`. -/
def parseLabelLine (idx : ℕ) (line : List Char) : List RegionData :=
  if jsTrim line = [] then []
  else
    let parts := (splitWs line).map jsTrim
    if parts.length < 4 then []
    else
      match parts with
      | p0 :: p1 :: p2 :: p3 :: _ =>
        match parseFloat p0, parseFloat p1 with
        | some s, some e =>
          (if parseInt p3 = some 1 then
            [{ id := RegionId.clinicalWheeze idx s e, start := s, stop := e,
               content := "Wheeze", color := "rgba(239, 68, 68, 0.3)" }]
           else []) ++
          (if parseInt p2 = some 1 then
            [{ id := RegionId.clinicalCrackle idx s e, start := s, stop := e,
               content := "Crackle", color := "rgba(234, 179, 8, 0.3)" }]
           else [])
        | _, _ => []
      | _ => []

/-- `parseLabelString` (part_005): split the text into lines and run the
per-line loop, concatenating the pushed regions in order. -/
def parseLabelString (text : List Char) : List RegionData :=
  ((splitNl text).enum.map (fun p => parseLabelLine p.1 p.2)).flatten

/-- The label text of the C6 example scenario. -/
def exampleLabelText : List Char := "0.05\t0.80\t0\t1\n1.20\t1.50\t1\t0".data

/-- A label line whose `end` field is smaller than its `start` field. -/
def invertedLabelText : List Char := "5 2 1 0".data

/-- Exactly two ASCII digits (`(\d{2})`): value and rest. -/
def twoDigits (l : List Char) : Option (ℕ × List Char) :=
  match l with
  | a :: b :: r =>
    if isDigitChar a && isDigitChar b then
      some (10 * (a.toNat - 48) + (b.toNat - 48), r)
    else none
  | _ => none

/-- One `M:SS` timestamp, `(\d{1,2}):(\d{2})`, with the regex's greedy
minute: two digits are preferred; if the following character is then not a
colon, one digit is tried (the one-digit retry can only succeed when the
second character is a colon, so the two alternatives are mutually
exclusive and committed choice is faithful). Returns
`(minutes, seconds, rest)`. -/
def matchTS (l : List Char) : Option (ℕ × ℕ × List Char) :=
  match l with
  | a :: b :: r =>
    if isDigitChar a then
      if isDigitChar b then
        match r with
        | c :: r2 =>
          if c = ':' then
            (twoDigits r2).map (fun p => (10 * (a.toNat - 48) + (b.toNat - 48), p.1, p.2))
          else none
        | [] => none
      else if b = ':' then
        (twoDigits r).map (fun p => (a.toNat - 48, p.1, p.2))
      else none
    else none
  | _ => none

/-- `\s*`: greedy whitespace skip. No whitespace character can begin the
following separator or timestamp, so the regex never has to backtrack
into the skipped run and the greedy skip is faithful. -/
def dropSpaces (l : List Char) : List Char := l.dropWhile jsSpace

/-- The separator alternation `(?:[-–—]|to)` under the `i` flag (so also
`To`, `tO`, `TO`). The alternatives start with distinct characters. -/
def matchSep (l : List Char) : Option (List Char) :=
  match l with
  | c :: r =>
    if c = '-' ∨ c = '–' ∨ c = '—' then some r
    else if c = 't' ∨ c = 'T' then
      match r with
      | o :: r2 => if o = 'o' ∨ o = 'O' then some r2 else none
      | [] => none
    else none
  | [] => none

/-- One attempt of the timestamp-pair regex
`(\d{1,2}):(\d{2})\s*(?:[-–—]|to)\s*(\d{1,2}):(\d{2})` (flags `gi`) at the
start of `l`: on success `some (start, end, rest)` with
`start = startMin * 60 + startSec` and `end = endMin * 60 + endSec`,
exactly the conversion done in the CenterStage parsing effect. -/
def tryMatch (l : List Char) : Option (ℕ × ℕ × List Char) :=
  match matchTS l with
  | none => none
  | some (m1, s1, r1) =>
    match matchSep (dropSpaces r1) with
    | none => none
    | some r3 =>
      match matchTS (dropSpaces r3) with
      | none => none
      | some (m2, s2, r5) => some (m1 * 60 + s1, m2 * 60 + s2, r5)

/-- Fuel-indexed version of the scan loop
`while ((match = regex.exec(aiAnalysisOutput)) !== null)`: leftmost
non-overlapping matches, resuming after each match. Any fuel of at least
the input length computes the same list (a successful match consumes at
least nine characters). -/
def scanFuel : ℕ → List Char → List (ℕ × ℕ)
  | 0, _ => []
  | _ + 1, [] => []
  | n + 1, c :: r =>
    match tryMatch (c :: r) with
    | some (a, b, r5) => (a, b) :: scanFuel n r5
    | none => scanFuel n r

/-- All matches of the timestamp-pair regex in the text, in order. -/
def scanMatches (l : List Char) : List (ℕ × ℕ) := scanFuel l.length l

/-- The body of the parsing loop accumulating `parsedRegions`: discard a
match with `end <= start`, then push unless a region with the same id is
already present (the id `ai-region-START-END` is determined by the pair,
so the lookup compares the pairs). -/
def pushRegion (acc : List (ℕ × ℕ)) (m : ℕ × ℕ) : List (ℕ × ℕ) :=
  if m.2 ≤ m.1 then acc
  else if acc.contains m then acc
  else acc ++ [m]

/-- The parsed region list of the CenterStage AI-parsing effect for a given
accumulated text: every pair `(s, e)` stands for the RegionData with id
`ai-region-s-e`, `start = s`, `end = e`, `content = 'AI Diagnosis'` and
the fixed purple color. -/
def parseAiRegions (text : List Char) : List (ℕ × ℕ) :=
  (scanMatches text).foldl pushRegion []

/-- The RegionData corresponding to a parsed pair. -/
def aiRegionData (m : ℕ × ℕ) : RegionData :=
  { id := RegionId.aiRegion m.1 m.2, start := m.1, stop := m.2,
    content := "AI Diagnosis", color := "rgba(168, 85, 247, 0.9)" }

/-- One run of the CenterStage AI-parsing effect as a state update on
`aiRegions`: empty text resets the regions to `[]`; otherwise the freshly
parsed list replaces the state whenever the `JSON.stringify` comparison
(which on these lists coincides with equality) says it differs. -/
def aiStep (regions : List (ℕ × ℕ)) (text : List Char) : List (ℕ × ℕ) :=
  if text = [] then []
  else if parseAiRegions text ≠ regions then parseAiRegions text else regions

theorem jsMax_eq_max (a b : ℚ) : jsMax a b = max a b := by
  unfold jsMax
  split
  · exact (max_eq_right (by assumption)).symm
  · exact (max_eq_left (le_of_not_le (by assumption))).symm

theorem jsMin_eq_min (a b : ℚ) : jsMin a b = min a b := by
  unfold jsMin
  split
  · exact (min_eq_left (by assumption)).symm
  · exact (min_eq_right (le_of_not_le (by assumption))).symm

theorem maxScroll_nonneg (i : ViewportInput) : 0 ≤ maxScroll i := by
  rw [maxScroll, jsMax_eq_max]; exact le_max_left _ _

theorem containerWidth_le_total (i : ViewportInput) :
    i.containerWidth ≤ totalScrollableWidth i := by
  rw [totalScrollableWidth, jsMax_eq_max]; exact le_max_left _ _

theorem maxScroll_eq (i : ViewportInput) :
    maxScroll i = totalScrollableWidth i - i.containerWidth := by
  rw [maxScroll, jsMax_eq_max]
  exact max_eq_right (sub_nonneg.mpr (containerWidth_le_total i))

theorem halfWidth_add_halfWidth (i : ViewportInput) :
    halfWidth i + halfWidth i = i.containerWidth := by
  unfold halfWidth; ring

/-- The unrounded scroll offset is nonnegative. -/
theorem scrollCursor_fst_nonneg (i : ViewportInput) :
    0 ≤ (scrollCursor i).1 := by
  unfold scrollCursor
  split
  · exact le_refl 0
  · split
    · exact maxScroll_nonneg i
    · next h _ => simpa using sub_nonneg.mpr (not_lt.mp h)

/-- The unrounded scroll offset never exceeds `maxScroll`. -/
theorem scrollCursor_fst_le (i : ViewportInput) :
    (scrollCursor i).1 ≤ maxScroll i := by
  unfold scrollCursor
  split
  · exact maxScroll_nonneg i
  · split
    · exact le_refl _
    · next h h2 =>
      simp only
      rw [maxScroll_eq i]
      have h2' : currentPixel i ≤ totalScrollableWidth i - halfWidth i := not_lt.mp h2
      have hw : halfWidth i + halfWidth i = i.containerWidth := halfWidth_add_halfWidth i
      linarith

theorem jsRound_nonneg {x : ℚ} (h : 0 ≤ x) : 0 ≤ jsRound x := by
  unfold jsRound
  have : (0 : ℤ) = ⌊(0 : ℚ) + 1/2⌋ := by norm_num
  rw [this]
  exact Int.floor_le_floor (by linarith)

theorem jsRound_mono {x y : ℚ} (h : x ≤ y) : jsRound x ≤ jsRound y :=
  Int.floor_le_floor (by linarith)

theorem jsRound_le {x : ℚ} : (jsRound x : ℚ) ≤ x + 1/2 :=
  Int.floor_le _

/-- C1: the claim as stated is false: on `viewportCex` (which satisfies all
of the claim's validity hypotheses) the rounded scroll offset is 31 while
`maxScrollPx = 30.5`, so `scrollLeftPx ≤ maxScrollPx` fails. -/
theorem scroll_bound_counterexample :
    0 < viewportCex.containerWidth ∧ 0 < viewportCex.zoomLevel ∧
    0 ≤ viewportCex.duration ∧ 0 ≤ viewportCex.currentTime ∧
    viewportCex.currentTime ≤ viewportCex.duration ∧
    ¬ ((scrollLeftPx viewportCex : ℚ) ≤ maxScroll viewportCex) := by
  have ht : totalScrollableWidth viewportCex = 1661/2 := by
    rw [totalScrollableWidth, jsMax_eq_max,
      max_eq_right (by norm_num [contentWidth, viewportCex])]
    norm_num [contentWidth, viewportCex]
  have h1 : maxScroll viewportCex = 61/2 := by
    rw [maxScroll, jsMax_eq_max, ht]
    rw [max_eq_right (by norm_num [viewportCex])]
    norm_num [viewportCex]
  have hnolt : ¬ (currentPixel viewportCex < halfWidth viewportCex) := by
    norm_num [currentPixel, halfWidth, viewportCex]
  have hgt : currentPixel viewportCex >
      totalScrollableWidth viewportCex - halfWidth viewportCex := by
    rw [ht]; norm_num [currentPixel, halfWidth, viewportCex]
  have hsc : (scrollCursor viewportCex).1 = 61/2 := by
    rw [scrollCursor, if_neg hnolt, if_pos hgt]
    exact h1
  have h2 : scrollLeftPx viewportCex = 31 := by
    rw [scrollLeftPx, hsc, jsRound]
    norm_num
  refine ⟨by norm_num [viewportCex], by norm_num [viewportCex],
    by norm_num [viewportCex], by norm_num [viewportCex],
    by norm_num [viewportCex], ?_⟩
  rw [h1, h2]
  norm_num

/-- C1 (amended): for every input with `containerWidth > 0`,
`zoomLevel > 0`, `duration ≥ 0` and `0 ≤ currentTime ≤ duration`, the
rounded scroll offset satisfies `0 ≤ scrollLeftPx`, is at most
`maxScrollPx` rounded to the nearest integer, and exceeds the exact
`maxScrollPx` by at most 1/2 (the unrounded value lies in
`[0, maxScrollPx]` exactly). -/
theorem scroll_bound_amended (i : ViewportInput)
    (hcw : 0 < i.containerWidth) (hz : 0 < i.zoomLevel)
    (hd : 0 ≤ i.duration) (h0 : 0 ≤ i.currentTime)
    (h1 : i.currentTime ≤ i.duration) :
    (0 ≤ (scrollCursor i).1 ∧ (scrollCursor i).1 ≤ maxScroll i) ∧
    0 ≤ scrollLeftPx i ∧ scrollLeftPx i ≤ jsRound (maxScroll i) ∧
    (scrollLeftPx i : ℚ) ≤ maxScroll i + 1/2 := by
  refine ⟨⟨scrollCursor_fst_nonneg i, scrollCursor_fst_le i⟩, ?_, ?_, ?_⟩
  · exact jsRound_nonneg (scrollCursor_fst_nonneg i)
  · exact jsRound_mono (scrollCursor_fst_le i)
  · calc (scrollLeftPx i : ℚ) ≤ (scrollCursor i).1 + 1/2 := jsRound_le
      _ ≤ maxScroll i + 1/2 := by linarith [scrollCursor_fst_le i]

/-- Witness for C1 (amended) at a concrete valid input. -/
theorem scroll_bound_amended_witness :
    (0 < viewportCex.containerWidth ∧ 0 < viewportCex.zoomLevel ∧
     0 ≤ viewportCex.duration ∧ 0 ≤ viewportCex.currentTime ∧
     viewportCex.currentTime ≤ viewportCex.duration) ∧
    (0 ≤ scrollLeftPx viewportCex ∧
     scrollLeftPx viewportCex ≤ jsRound (maxScroll viewportCex) ∧
     (scrollLeftPx viewportCex : ℚ) ≤ maxScroll viewportCex + 1/2) :=
  ⟨⟨by norm_num [viewportCex], by norm_num [viewportCex], by norm_num [viewportCex],
    by norm_num [viewportCex], by norm_num [viewportCex]⟩,
   (scroll_bound_amended viewportCex (by norm_num [viewportCex])
      (by norm_num [viewportCex]) (by norm_num [viewportCex])
      (by norm_num [viewportCex]) (by norm_num [viewportCex])).2⟩

/-- C2: with the geometry fixed, the cursor formulas of adjacent phases
agree at both phase transitions: at `currentPixel = halfWidth` the
start-phase and middle-phase formulas both give `halfWidth`, and at
`currentPixel = totalScrollableWidth - halfWidth` the middle-phase and
end-phase formulas both give `halfWidth`; in both cases the actually
computed `cursorLeftPx` equals `halfWidth`, so the playhead position is
continuous across the transitions. -/
theorem playhead_continuity (i : ViewportInput) :
    (currentPixel i = halfWidth i →
      cursorStartPhase i = halfWidth i ∧ cursorMiddlePhase i = halfWidth i ∧
      cursorLeftPx i = halfWidth i) ∧
    (currentPixel i = totalScrollableWidth i - halfWidth i →
      cursorMiddlePhase i = halfWidth i ∧ cursorEndPhase i = halfWidth i ∧
      cursorLeftPx i = halfWidth i) := by
  have htot : i.containerWidth ≤ totalScrollableWidth i := containerWidth_le_total i
  have hw : halfWidth i + halfWidth i = i.containerWidth := halfWidth_add_halfWidth i
  constructor
  · intro h
    refine ⟨h, rfl, ?_⟩
    unfold cursorLeftPx scrollCursor
    rw [if_neg (by rw [h]; exact lt_irrefl _), if_neg (by rw [h]; intro hgt; linarith)]
  · intro h
    constructor
    · rfl
    constructor
    · rw [cursorEndPhase, h, maxScroll_eq i]; linarith
    · unfold cursorLeftPx scrollCursor
      rw [if_neg (by rw [h]; intro hlt; linarith), if_neg (by rw [h]; exact lt_irrefl _)]

theorem boundaryMiddleEnd_at_transition :
    currentPixel boundaryMiddleEnd =
      totalScrollableWidth boundaryMiddleEnd - halfWidth boundaryMiddleEnd := by
  rw [totalScrollableWidth, jsMax_eq_max,
    max_eq_right (by norm_num [contentWidth, boundaryMiddleEnd])]
  norm_num [currentPixel, contentWidth, halfWidth, boundaryMiddleEnd]

/-- Witness for C2 at the two concrete phase-transition inputs. -/
theorem playhead_continuity_witness :
    (currentPixel boundaryStartMiddle = halfWidth boundaryStartMiddle ∧
     cursorLeftPx boundaryStartMiddle = halfWidth boundaryStartMiddle) ∧
    (currentPixel boundaryMiddleEnd =
       totalScrollableWidth boundaryMiddleEnd - halfWidth boundaryMiddleEnd ∧
     cursorLeftPx boundaryMiddleEnd = halfWidth boundaryMiddleEnd) :=
  ⟨⟨by norm_num [currentPixel, halfWidth, boundaryStartMiddle],
    ((playhead_continuity boundaryStartMiddle).1
      (by norm_num [currentPixel, halfWidth, boundaryStartMiddle])).2.2⟩,
   ⟨boundaryMiddleEnd_at_transition,
    ((playhead_continuity boundaryMiddleEnd).2
      boundaryMiddleEnd_at_transition).2.2⟩⟩

/-- C3: the claim as stated is false: `handleSeek` performs no clamping, so
`seek(-5)` on a 10-second file leaves `currentTime = -5` (not `0`) and
`seek(99)` leaves `currentTime = 99` (not `duration = 10`). -/
theorem seek_clamping_counterexample :
    tenSecondClock.duration = 10 ∧
    (handleSeek tenSecondClock (-5)).currentTime = -5 ∧
    (handleSeek tenSecondClock (-5)).currentTime ≠ 0 ∧
    (handleSeek tenSecondClock 99).currentTime = 99 ∧
    (handleSeek tenSecondClock 99).currentTime ≠ tenSecondClock.duration :=
  ⟨rfl, rfl, by norm_num [handleSeek], rfl, by norm_num [handleSeek, tenSecondClock]⟩

/-- C3 (amended): `handleSeek` does not clamp: for every state and every
time value `t` (including `t < 0` and `t > duration`) it sets
`currentTime = t` and publishes `seekTarget = t`, leaving every other
field unchanged. (Clamping happens only at some call sites: the
MasterControls skip buttons pass `Math.max(0, currentTime - 5)` resp.
`Math.min(duration, currentTime + 5)`). -/
theorem handleSeek_no_clamping (s : ClockState) (t : ℚ) :
    (handleSeek s t).currentTime = t ∧
    (handleSeek s t).seekTarget = some t ∧
    (handleSeek s t).duration = s.duration ∧
    (handleSeek s t).isPlaying = s.isPlaying ∧
    (handleSeek s t).volume = s.volume ∧
    (handleSeek s t).isMuted = s.isMuted ∧
    (handleSeek s t).zoomLevel = s.zoomLevel :=
  ⟨rfl, rfl, rfl, rfl, rfl, rfl, rfl⟩

/-- C8: from any `zoomLevel` in `[10, 500]`, `handleZoomIn` and
`handleZoomOut` produce a `zoomLevel` still in `[10, 500]`, and neither
changes `currentTime` or any other playback state field. -/
theorem zoom_frame_effect (s : ClockState)
    (hlo : 10 ≤ s.zoomLevel) (hhi : s.zoomLevel ≤ 500) :
    (10 ≤ (handleZoomIn s).zoomLevel ∧ (handleZoomIn s).zoomLevel ≤ 500) ∧
    (10 ≤ (handleZoomOut s).zoomLevel ∧ (handleZoomOut s).zoomLevel ≤ 500) ∧
    ((handleZoomIn s).currentTime = s.currentTime ∧
     (handleZoomIn s).isPlaying = s.isPlaying ∧
     (handleZoomIn s).duration = s.duration ∧
     (handleZoomIn s).volume = s.volume ∧
     (handleZoomIn s).isMuted = s.isMuted ∧
     (handleZoomIn s).seekTarget = s.seekTarget) ∧
    ((handleZoomOut s).currentTime = s.currentTime ∧
     (handleZoomOut s).isPlaying = s.isPlaying ∧
     (handleZoomOut s).duration = s.duration ∧
     (handleZoomOut s).volume = s.volume ∧
     (handleZoomOut s).isMuted = s.isMuted ∧
     (handleZoomOut s).seekTarget = s.seekTarget) := by
  refine ⟨⟨?_, ?_⟩, ⟨?_, ?_⟩,
    ⟨rfl, rfl, rfl, rfl, rfl, rfl⟩, ⟨rfl, rfl, rfl, rfl, rfl, rfl⟩⟩
  · show 10 ≤ jsMin (s.zoomLevel + 50) 500
    rw [jsMin_eq_min]
    exact le_min (by linarith) (by norm_num)
  · show jsMin (s.zoomLevel + 50) 500 ≤ 500
    rw [jsMin_eq_min]
    exact min_le_right _ _
  · show 10 ≤ jsMax (s.zoomLevel - 50) 10
    rw [jsMax_eq_max]
    exact le_max_right _ _
  · show jsMax (s.zoomLevel - 50) 10 ≤ 500
    rw [jsMax_eq_max]
    exact max_le (by linarith) (by norm_num)

/-- Witness for C8 at the concrete ten-second clock state (zoom 50). -/
theorem zoom_frame_effect_witness :
    (10 ≤ tenSecondClock.zoomLevel ∧ tenSecondClock.zoomLevel ≤ 500) ∧
    ((handleZoomIn tenSecondClock).zoomLevel ≤ 500 ∧
     (handleZoomIn tenSecondClock).currentTime = tenSecondClock.currentTime ∧
     (handleZoomOut tenSecondClock).currentTime = tenSecondClock.currentTime) :=
  ⟨⟨by norm_num [tenSecondClock], by norm_num [tenSecondClock]⟩,
   ⟨(zoom_frame_effect tenSecondClock (by norm_num [tenSecondClock])
       (by norm_num [tenSecondClock])).1.2,
    (zoom_frame_effect tenSecondClock (by norm_num [tenSecondClock])
       (by norm_num [tenSecondClock])).2.2.1.1,
    (zoom_frame_effect tenSecondClock (by norm_num [tenSecondClock])
       (by norm_num [tenSecondClock])).2.2.2.1⟩⟩

/-- C7: the claim as stated is false when the master volume is 0: with the
filtered track active and unmuted but `volume = 0`, neither track has
non-zero effective volume, so "exactly one of the two tracks has non-zero
effective volume" fails. -/
theorem volume_exclusion_counterexample :
    rawTrackVolume AudioSource.filtered false 0 = 0 ∧
    filteredTrackVolume AudioSource.filtered false 0 = 0 ∧
    ¬ ((rawTrackVolume AudioSource.filtered false 0 ≠ 0 ∧
        filteredTrackVolume AudioSource.filtered false 0 = 0) ∨
       (rawTrackVolume AudioSource.filtered false 0 = 0 ∧
        filteredTrackVolume AudioSource.filtered false 0 ≠ 0)) := by
  refine ⟨rfl, rfl, ?_⟩
  rintro (⟨h, _⟩ | ⟨_, h⟩) <;> exact h rfl

/-- C7 (amended): each track's effective volume is 0 when muted or when the
track is not the active source, and equals the master volume otherwise;
consequently, whenever the master volume is non-zero and the player is
unmuted (and the filtered track exists), exactly one of the raw/filtered
tracks has non-zero effective volume. -/
theorem volume_exclusion_amended (active : AudioSource) (isMuted : Bool) (volume : ℚ) :
    (rawTrackVolume active isMuted volume =
      if isMuted = true ∨ active ≠ AudioSource.raw then 0 else volume) ∧
    (filteredTrackVolume active isMuted volume =
      if isMuted = true ∨ active ≠ AudioSource.filtered then 0 else volume) ∧
    (volume ≠ 0 → isMuted = false →
      (rawTrackVolume active isMuted volume ≠ 0 ∧
       filteredTrackVolume active isMuted volume = 0) ∨
      (rawTrackVolume active isMuted volume = 0 ∧
       filteredTrackVolume active isMuted volume ≠ 0)) := by
  refine ⟨?_, ?_, ?_⟩
  · cases active <;> cases isMuted <;> simp [rawTrackVolume]
  · cases active <;> cases isMuted <;> simp [filteredTrackVolume]
  · intro hv hm
    subst hm
    cases active
    · exact Or.inl ⟨by simpa [rawTrackVolume] using hv, by simp [filteredTrackVolume]⟩
    · exact Or.inr ⟨by simp [rawTrackVolume], by simpa [filteredTrackVolume] using hv⟩

/-- Witness for C7 (amended): filtered track active, unmuted, volume 1. -/
theorem volume_exclusion_amended_witness :
    (1 : ℚ) ≠ 0 ∧
    ((rawTrackVolume AudioSource.filtered false 1 ≠ 0 ∧
      filteredTrackVolume AudioSource.filtered false 1 = 0) ∨
     (rawTrackVolume AudioSource.filtered false 1 = 0 ∧
      filteredTrackVolume AudioSource.filtered false 1 ≠ 0)) :=
  ⟨by norm_num,
   (volume_exclusion_amended AudioSource.filtered false 1).2.2 (by norm_num) rfl⟩

theorem splitWs_head_space :
    ∀ (r : List Char) (c : Char), jsSpace c = true →
      ∃ t, splitWs (c :: r) = [] :: t := by
  intro r
  induction r with
  | nil => intro c hc; exact ⟨[[]], by simp [splitWs, hc]⟩
  | cons c' r' ih =>
    intro c hc
    by_cases h' : jsSpace c' = true
    · obtain ⟨t, ht⟩ := ih c' h'
      refine ⟨t, ?_⟩
      rw [splitWs, if_pos hc, if_pos h']
      exact ht
    · refine ⟨splitWs (c' :: r'), ?_⟩
      rw [splitWs, if_pos hc, if_neg h']

/-- C4: the claim as stated is false: the clinical parser does not validate
`end > start`; on the line `"5 2 1 0"` it emits a Crackle region with
`start = 5`, `end = 2`. -/
theorem region_invariant_counterexample :
    ∃ r ∈ parseLabelString invertedLabelText, ¬ (r.start < r.stop) := by
  have h : parseLabelString invertedLabelText =
      [{ id := RegionId.clinicalCrackle 0 (assembleFloat (1,5,0,0,0)) (assembleFloat (1,2,0,0,0)),
         start := assembleFloat (1,5,0,0,0), stop := assembleFloat (1,2,0,0,0),
         content := "Crackle", color := "rgba(234, 179, 8, 0.3)" }] := rfl
  rw [h]
  refine ⟨_, List.mem_singleton_self _, ?_⟩
  norm_num [assembleFloat]

/-- C9: a non-blank line starting with a whitespace character emits no
regions: the split yields an empty first field, whose `parseFloat` is NaN,
so the line is skipped - even when the remaining fields are four valid
numeric values. -/
theorem leading_delimiter_skips_line (idx : ℕ) (c : Char) (rest : List Char)
    (hsp : jsSpace c = true) (hne : jsTrim (c :: rest) ≠ []) :
    parseLabelLine idx (c :: rest) = [] := by
  obtain ⟨t, ht⟩ := splitWs_head_space rest c hsp
  simp only [parseLabelLine, if_neg hne, ht, List.map_cons,
    show jsTrim ([] : List Char) = [] from rfl]
  rcases t with _ | ⟨a, t1⟩
  · rfl
  rcases t1 with _ | ⟨b, t2⟩
  · rfl
  rcases t2 with _ | ⟨d, t3⟩
  · rfl
  rw [if_neg (by simp)]
  rfl

/-- Witness for C9 at the line `" 1.0 2.0 1 1"` (leading space, then four
valid numeric fields). -/
theorem leading_delimiter_skips_line_witness :
    jsSpace ' ' = true ∧ jsTrim (' ' :: "1.0 2.0 1 1".data) ≠ [] ∧
    parseLabelLine 0 (' ' :: "1.0 2.0 1 1".data) = [] :=
  ⟨by decide, by decide,
   leading_delimiter_skips_line 0 ' ' "1.0 2.0 1 1".data (by decide) (by decide)⟩

/-- C6: for every non-blank line splitting into at least 4 fields whose
first two parse as numbers `s` and `e`, the emitted regions are exactly a
Wheeze region (when the fourth field parses to 1) followed by a Crackle
region (when the third field parses to 1) - zero, one or two regions; and
the example text yields exactly the Wheeze (0.05, 0.80) and Crackle
(1.20, 1.50) regions. -/
theorem clinical_line_emission (idx : ℕ) (line : List Char)
    (p0 p1 p2 p3 : List Char) (rest : List (List Char)) (s e : ℚ)
    (hne : jsTrim line ≠ [])
    (hparts : (splitWs line).map jsTrim = p0 :: p1 :: p2 :: p3 :: rest)
    (hs : parseFloat p0 = some s) (he : parseFloat p1 = some e) :
    (parseLabelLine idx line =
      (if parseInt p3 = some 1 then
        [{ id := RegionId.clinicalWheeze idx s e, start := s, stop := e,
           content := "Wheeze", color := "rgba(239, 68, 68, 0.3)" }]
       else []) ++
      (if parseInt p2 = some 1 then
        [{ id := RegionId.clinicalCrackle idx s e, start := s, stop := e,
           content := "Crackle", color := "rgba(234, 179, 8, 0.3)" }]
       else [])) ∧
    ((∃ r ∈ parseLabelLine idx line, r.content = "Wheeze") ↔ parseInt p3 = some 1) ∧
    ((∃ r ∈ parseLabelLine idx line, r.content = "Crackle") ↔ parseInt p2 = some 1) ∧
    parseLabelString exampleLabelText =
      [{ id := RegionId.clinicalWheeze 0 (1/20) (4/5), start := 1/20, stop := 4/5,
         content := "Wheeze", color := "rgba(239, 68, 68, 0.3)" },
       { id := RegionId.clinicalCrackle 1 (6/5) (3/2), start := 6/5, stop := 3/2,
         content := "Crackle", color := "rgba(234, 179, 8, 0.3)" }] := by
  have hmain : parseLabelLine idx line =
      (if parseInt p3 = some 1 then
        [{ id := RegionId.clinicalWheeze idx s e, start := s, stop := e,
           content := "Wheeze", color := "rgba(239, 68, 68, 0.3)" }]
       else []) ++
      (if parseInt p2 = some 1 then
        [{ id := RegionId.clinicalCrackle idx s e, start := s, stop := e,
           content := "Crackle", color := "rgba(234, 179, 8, 0.3)" }]
       else []) := by
    simp only [parseLabelLine, if_neg hne, hparts]
    rw [if_neg (by simp)]
    rw [hs, he]
  refine ⟨hmain, ?_, ?_, ?_⟩
  · rw [hmain]
    by_cases h3 : parseInt p3 = some 1 <;> by_cases h2 : parseInt p2 = some 1 <;>
      simp [h2, h3]
  · rw [hmain]
    by_cases h3 : parseInt p3 = some 1 <;> by_cases h2 : parseInt p2 = some 1 <;>
      simp [h2, h3]
  · have h0 : parseLabelString exampleLabelText =
        [{ id := RegionId.clinicalWheeze 0 (assembleFloat (1,0,5,2,0)) (assembleFloat (1,0,80,2,0)),
           start := assembleFloat (1,0,5,2,0), stop := assembleFloat (1,0,80,2,0),
           content := "Wheeze", color := "rgba(239, 68, 68, 0.3)" },
         { id := RegionId.clinicalCrackle 1 (assembleFloat (1,1,20,2,0)) (assembleFloat (1,1,50,2,0)),
           start := assembleFloat (1,1,20,2,0), stop := assembleFloat (1,1,50,2,0),
           content := "Crackle", color := "rgba(234, 179, 8, 0.3)" }] := rfl
    rw [h0]
    norm_num [assembleFloat]

/-- Witness for C6 at the example's first line. -/
theorem clinical_line_emission_witness :
    jsTrim "0.05\t0.80\t0\t1".data ≠ [] ∧
    parseFloat "0.05".data = some (1/20) ∧
    parseLabelString exampleLabelText =
      [{ id := RegionId.clinicalWheeze 0 (1/20) (4/5), start := 1/20, stop := 4/5,
         content := "Wheeze", color := "rgba(239, 68, 68, 0.3)" },
       { id := RegionId.clinicalCrackle 1 (6/5) (3/2), start := 6/5, stop := 3/2,
         content := "Crackle", color := "rgba(234, 179, 8, 0.3)" }] := by
  have hs : parseFloat "0.05".data = some (1/20) := by
    rw [show parseFloat "0.05".data = some (assembleFloat (1,0,5,2,0)) from rfl]
    norm_num [assembleFloat]
  have he : parseFloat "0.80".data = some (4/5) := by
    rw [show parseFloat "0.80".data = some (assembleFloat (1,0,80,2,0)) from rfl]
    norm_num [assembleFloat]
  refine ⟨by decide, hs, ?_⟩
  exact (clinical_line_emission 0 "0.05\t0.80\t0\t1".data "0.05".data "0.80".data
    "0".data "1".data [] (1/20) (4/5) (by decide) (by decide) hs he).2.2.2

theorem twoDigits_shape {l : List Char} {n : ℕ} {r : List Char}
    (h : twoDigits l = some (n, r)) :
    ∃ a b, l = a :: b :: r ∧ isDigitChar a = true ∧ isDigitChar b = true ∧
      n = 10 * (a.toNat - 48) + (b.toNat - 48) := by
  rcases l with _ | ⟨a, _ | ⟨b, r0⟩⟩
  · rw [show twoDigits ([] : List Char) = none from rfl] at h
    exact Option.noConfusion h
  · rw [show twoDigits [a] = none from rfl] at h
    exact Option.noConfusion h
  · by_cases hd : (isDigitChar a && isDigitChar b) = true
    · dsimp only [twoDigits] at h
      rw [if_pos hd] at h
      simp only [Bool.and_eq_true] at hd
      injection h with h'
      injection h' with h1 h2
      exact ⟨a, b, by rw [h2], hd.1, hd.2, h1.symm⟩
    · dsimp only [twoDigits] at h
      rw [if_neg hd] at h
      exact Option.noConfusion h

theorem matchTS_shape {l : List Char} {m x : ℕ} {r : List Char}
    (h : matchTS l = some (m, x, r)) :
    (∃ a b c, l = a :: ':' :: b :: c :: r ∧ isDigitChar a = true ∧
      isDigitChar b = true ∧ isDigitChar c = true ∧
      m = a.toNat - 48 ∧ x = 10 * (b.toNat - 48) + (c.toNat - 48)) ∨
    (∃ a a2 b c, l = a :: a2 :: ':' :: b :: c :: r ∧ isDigitChar a = true ∧
      isDigitChar a2 = true ∧ isDigitChar b = true ∧ isDigitChar c = true ∧
      m = 10 * (a.toNat - 48) + (a2.toNat - 48) ∧
      x = 10 * (b.toNat - 48) + (c.toNat - 48)) := by
  rcases l with _ | ⟨a, _ | ⟨b, r0⟩⟩
  · rw [show matchTS ([] : List Char) = none from rfl] at h
    exact Option.noConfusion h
  · rw [show matchTS [a] = none from rfl] at h
    exact Option.noConfusion h
  · by_cases hda : isDigitChar a = true
    · by_cases hdb : isDigitChar b = true
      · rcases r0 with _ | ⟨c, r2⟩
        · dsimp only [matchTS] at h
          rw [if_pos hda, if_pos hdb] at h
          exact Option.noConfusion h
        · by_cases hc : c = ':'
          · subst hc
            dsimp only [matchTS] at h
            rw [if_pos hda, if_pos hdb, if_pos rfl] at h
            rcases h2 : twoDigits r2 with _ | ⟨⟨n2, r3⟩⟩
            · rw [h2] at h
              exact Option.noConfusion h
            · rw [h2] at h
              obtain ⟨d1, d2, hr2, hd1, hd2, hn2⟩ := twoDigits_shape h2
              simp only [Option.map_some'] at h
              injection h with h'
              injection h' with hm h''
              injection h'' with hx hr
              refine Or.inr ⟨a, b, d1, d2, ?_, hda, hdb, hd1, hd2, hm.symm, ?_⟩
              · rw [hr2, hr]
              · rw [← hx, hn2]
          · dsimp only [matchTS] at h
            rw [if_pos hda, if_pos hdb, if_neg hc] at h
            exact Option.noConfusion h
      · by_cases hb : b = ':'
        · subst hb
          dsimp only [matchTS] at h
          rw [if_pos hda, if_neg hdb, if_pos rfl] at h
          rcases h2 : twoDigits r0 with _ | ⟨⟨n2, r3⟩⟩
          · rw [h2] at h
            exact Option.noConfusion h
          · rw [h2] at h
            obtain ⟨d1, d2, hr0, hd1, hd2, hn2⟩ := twoDigits_shape h2
            simp only [Option.map_some'] at h
            injection h with h'
            injection h' with hm h''
            injection h'' with hx hr
            refine Or.inl ⟨a, d1, d2, ?_, hda, hd1, hd2, hm.symm, ?_⟩
            · rw [hr0, hr]
            · rw [← hx, hn2]
        · dsimp only [matchTS] at h
          rw [if_pos hda, if_neg hdb, if_neg hb] at h
          exact Option.noConfusion h
    · dsimp only [matchTS] at h
      rw [if_neg hda] at h
      exact Option.noConfusion h

theorem matchSep_shape {l : List Char} {r : List Char}
    (h : matchSep l = some r) :
    (∃ c, l = c :: r ∧ (c = '-' ∨ c = '–' ∨ c = '—')) ∨
    (∃ c o, l = c :: o :: r ∧ (c = 't' ∨ c = 'T') ∧ (o = 'o' ∨ o = 'O')) := by
  rcases l with _ | ⟨c, r0⟩
  · rw [show matchSep ([] : List Char) = none from rfl] at h
    exact Option.noConfusion h
  · by_cases hdash : c = '-' ∨ c = '–' ∨ c = '—'
    · dsimp only [matchSep] at h
      rw [if_pos hdash] at h
      exact Or.inl ⟨c, by rw [Option.some.inj h], hdash⟩
    · by_cases ht : c = 't' ∨ c = 'T'
      · rcases r0 with _ | ⟨o, r2⟩
        · dsimp only [matchSep] at h
          rw [if_neg hdash, if_pos ht] at h
          exact Option.noConfusion h
        · by_cases ho : o = 'o' ∨ o = 'O'
          · dsimp only [matchSep] at h
            rw [if_neg hdash, if_pos ht, if_pos ho] at h
            exact Or.inr ⟨c, o, by rw [Option.some.inj h], ht, ho⟩
          · dsimp only [matchSep] at h
            rw [if_neg hdash, if_pos ht, if_neg ho] at h
            exact Option.noConfusion h
      · dsimp only [matchSep] at h
        rw [if_neg hdash, if_neg ht] at h
        exact Option.noConfusion h

theorem matchTS_len {l : List Char} {m x : ℕ} {r : List Char}
    (h : matchTS l = some (m, x, r)) :
    r.length + 4 ≤ l.length ∧ l.length ≤ r.length + 5 := by
  rcases matchTS_shape h with ⟨a, b, c, hl, _⟩ | ⟨a, a2, b, c, hl, _⟩ <;>
    subst hl <;> simp [List.length] <;> omega

theorem matchSep_len {l r : List Char} (h : matchSep l = some r) :
    r.length + 1 ≤ l.length ∧ l.length ≤ r.length + 2 := by
  rcases matchSep_shape h with ⟨c, hl, _⟩ | ⟨c, o, hl, _⟩ <;>
    subst hl <;> simp [List.length]

theorem dropSpaces_len (l : List Char) : (dropSpaces l).length ≤ l.length := by
  induction l with
  | nil => exact le_refl 0
  | cons c r ih =>
    simp only [dropSpaces, List.dropWhile_cons] at ih ⊢
    split
    · exact le_trans ih (by simp)
    · exact le_refl _

theorem dropSpaces_suffix (l : List Char) : dropSpaces l <:+ l := by
  induction l with
  | nil => exact List.suffix_refl _
  | cons c r ih =>
    simp only [dropSpaces, List.dropWhile_cons] at ih ⊢
    split
    · exact ih.trans (List.suffix_cons c r)
    · exact List.suffix_refl _

theorem tryMatch_pieces {l : List Char} {a b : ℕ} {r : List Char}
    (h : tryMatch l = some (a, b, r)) :
    ∃ m1 s1 R1 R3 m2 s2, matchTS l = some (m1, s1, R1) ∧
      matchSep (dropSpaces R1) = some R3 ∧
      matchTS (dropSpaces R3) = some (m2, s2, r) ∧
      a = m1 * 60 + s1 ∧ b = m2 * 60 + s2 := by
  unfold tryMatch at h
  rcases h1 : matchTS l with _ | ⟨⟨m1, s1, R1⟩⟩ <;> rw [h1] at h
  · exact Option.noConfusion h
  dsimp only at h
  rcases h2 : matchSep (dropSpaces R1) with _ | ⟨R3⟩ <;> rw [h2] at h
  · exact Option.noConfusion h
  dsimp only at h
  rcases h3 : matchTS (dropSpaces R3) with _ | ⟨⟨m2, s2, r5⟩⟩ <;> rw [h3] at h
  · exact Option.noConfusion h
  dsimp only at h
  injection h with h'
  injection h' with ha h''
  injection h'' with hb hr
  subst hr
  exact ⟨m1, s1, R1, R3, m2, s2, rfl, h2, h3, ha.symm, hb.symm⟩

theorem tryMatch_min {l : List Char} {a b : ℕ} {r : List Char}
    (h : tryMatch l = some (a, b, r)) : r.length + 9 ≤ l.length := by
  obtain ⟨m1, s1, R1, R3, m2, s2, h1, h2, h3, _, _⟩ := tryMatch_pieces h
  have l1 := matchTS_len h1
  have l2 := matchSep_len h2
  have l3 := matchTS_len h3
  have d1 := dropSpaces_len R1
  have d3 := dropSpaces_len R3
  omega

theorem jsSpace_not_digit {c : Char} (h : jsSpace c = true) :
    isDigitChar c = false := by
  simp only [jsSpace, decide_eq_true_eq] at h
  simp only [isDigitChar, decide_eq_false_iff_not]
  omega

theorem digit_toNat_bounds {c : Char} (h : isDigitChar c = true) :
    48 ≤ c.toNat ∧ c.toNat ≤ 57 := by
  simpa only [isDigitChar, decide_eq_true_eq] using h

theorem matchTS_none_head {c : Char} (w : List Char)
    (h : isDigitChar c = false) : matchTS (c :: w) = none := by
  rcases w with _ | ⟨d, w'⟩
  · rfl
  · dsimp only [matchTS]
    rw [if_neg (by rw [h]; exact Bool.false_ne_true)]

theorem tryMatch_none_head {c : Char} (w : List Char)
    (h : isDigitChar c = false) : tryMatch (c :: w) = none := by
  unfold tryMatch
  rw [matchTS_none_head w h]

theorem twoDigits_append {l s : List Char} {n : ℕ} {r : List Char}
    (h : twoDigits l = some (n, r)) :
    twoDigits (l ++ s) = some (n, r ++ s) := by
  obtain ⟨a, b, hl, hda, hdb, hn⟩ := twoDigits_shape h
  subst hl
  simp only [List.cons_append]
  dsimp only [twoDigits]
  rw [if_pos (by rw [hda, hdb]; rfl), hn]

theorem matchTS_append {l s : List Char} {m x : ℕ} {r : List Char}
    (h : matchTS l = some (m, x, r)) :
    matchTS (l ++ s) = some (m, x, r ++ s) := by
  rcases matchTS_shape h with ⟨a, b, c, hl, hda, hdb, hdc, hm, hx⟩ |
    ⟨a, a2, b, c, hl, hda, hda2, hdb, hdc, hm, hx⟩
  · subst hl
    simp only [List.cons_append]
    dsimp only [matchTS]
    rw [if_pos hda, if_neg (by rw [show isDigitChar ':' = false from rfl]; exact Bool.false_ne_true),
      if_pos rfl]
    dsimp only [twoDigits]
    rw [if_pos (by rw [hdb, hdc]; rfl)]
    simp only [Option.map_some']
    rw [hm, hx]
  · subst hl
    simp only [List.cons_append]
    dsimp only [matchTS]
    rw [if_pos hda, if_pos hda2, if_pos rfl]
    dsimp only [twoDigits]
    rw [if_pos (by rw [hdb, hdc]; rfl)]
    simp only [Option.map_some']
    rw [hm, hx]

theorem dropSpaces_append_ne {l : List Char} (s : List Char)
    (h : dropSpaces l ≠ []) :
    dropSpaces (l ++ s) = dropSpaces l ++ s := by
  induction l with
  | nil => exact absurd rfl h
  | cons c r ih =>
    simp only [dropSpaces, List.cons_append, List.dropWhile_cons] at h ⊢
    by_cases hc : jsSpace c = true
    · simp only [if_pos hc] at h ⊢
      exact ih h
    · simp only [if_neg hc]
      rfl

theorem dropSpaces_nil_all_space {l : List Char} (h : dropSpaces l = []) :
    ∀ c ∈ l, jsSpace c = true := by
  induction l with
  | nil => intro c hc; exact absurd hc (List.not_mem_nil c)
  | cons c r ih =>
    simp only [dropSpaces, List.dropWhile_cons] at h
    by_cases hc : jsSpace c = true
    · simp only [if_pos hc] at h
      intro d hd
      rcases List.mem_cons.mp hd with rfl | hd'
      · exact hc
      · exact ih h d hd'
    · simp only [if_neg hc] at h
      exact absurd h (by simp)

theorem dropSpaces_append_nil {l : List Char} (s : List Char)
    (h : dropSpaces l = []) :
    dropSpaces (l ++ s) = dropSpaces s := by
  induction l with
  | nil => rfl
  | cons c r ih =>
    have hc : jsSpace c = true := dropSpaces_nil_all_space h c (List.mem_cons_self c r)
    simp only [dropSpaces, List.cons_append, List.dropWhile_cons, if_pos hc] at h ⊢
    exact ih h

theorem matchSep_append {l s : List Char} {r : List Char}
    (h : matchSep l = some r) :
    matchSep (l ++ s) = some (r ++ s) := by
  rcases matchSep_shape h with ⟨c, hl, hc⟩ | ⟨c, o, hl, hc, ho⟩
  · subst hl
    rcases hc with rfl | rfl | rfl <;> rfl
  · subst hl
    rcases hc with rfl | rfl <;> rcases ho with rfl | rfl <;> rfl

theorem tryMatch_append {l s : List Char} {a b : ℕ} {r : List Char}
    (h : tryMatch l = some (a, b, r)) :
    tryMatch (l ++ s) = some (a, b, r ++ s) := by
  obtain ⟨m1, s1, R1, R3, m2, s2, h1, h2, h3, ha, hb⟩ := tryMatch_pieces h
  have hR1ne : dropSpaces R1 ≠ [] := by
    intro he
    rw [he] at h2
    exact Option.noConfusion h2
  have hR3ne : dropSpaces R3 ≠ [] := by
    intro he
    rw [he] at h3
    exact Option.noConfusion h3
  unfold tryMatch
  rw [matchTS_append h1]
  dsimp only
  rw [dropSpaces_append_ne s hR1ne, matchSep_append h2]
  dsimp only
  rw [dropSpaces_append_ne s hR3ne, matchTS_append h3]
  dsimp only
  rw [ha, hb]

theorem twoDigits_reflect {l s : List Char} {n : ℕ} {ρ : List Char}
    (h : twoDigits (l ++ s) = some (n, ρ)) (hlen : s.length ≤ ρ.length) :
    ∃ r, ρ = r ++ s ∧ twoDigits l = some (n, r) := by
  obtain ⟨a, b, hl, hda, hdb, hn⟩ := twoDigits_shape h
  have hlistlen := congrArg List.length hl
  simp only [List.length_append, List.length_cons] at hlistlen
  rcases l with _ | ⟨a', _ | ⟨b', l'⟩⟩
  · exfalso
    simp only [List.length_nil] at hlistlen
    omega
  · exfalso
    simp only [List.length_cons, List.length_nil] at hlistlen
    omega
  · simp only [List.cons_append] at hl
    injection hl with h1 hl2
    injection hl2 with h2 hl3
    subst h1
    subst h2
    refine ⟨l', hl3.symm, ?_⟩
    dsimp only [twoDigits]
    rw [if_pos (by rw [hda, hdb]; rfl), hn]

theorem matchTS_reflect {l s : List Char} {m x : ℕ} {ρ : List Char}
    (h : matchTS (l ++ s) = some (m, x, ρ)) (hlen : s.length ≤ ρ.length) :
    ∃ r, ρ = r ++ s ∧ matchTS l = some (m, x, r) := by
  rcases matchTS_shape h with ⟨a, b, c, hl, hda, hdb, hdc, hm, hx⟩ |
    ⟨a, a2, b, c, hl, hda, hda2, hdb, hdc, hm, hx⟩
  · have hlistlen := congrArg List.length hl
    simp only [List.length_append, List.length_cons] at hlistlen
    rcases l with _ | ⟨c1, _ | ⟨c2, _ | ⟨c3, _ | ⟨c4, l'⟩⟩⟩⟩
    · exfalso; simp only [List.length_nil] at hlistlen; omega
    · exfalso; simp only [List.length_cons, List.length_nil] at hlistlen; omega
    · exfalso; simp only [List.length_cons, List.length_nil] at hlistlen; omega
    · exfalso; simp only [List.length_cons, List.length_nil] at hlistlen; omega
    · simp only [List.cons_append] at hl
      injection hl with h1 hl2
      injection hl2 with h2 hl3
      injection hl3 with h3 hl4
      injection hl4 with h4 hl5
      subst h1
      subst h2
      subst h3
      subst h4
      refine ⟨l', hl5.symm, ?_⟩
      dsimp only [matchTS]
      rw [if_pos hda,
        if_neg (by rw [show isDigitChar ':' = false from rfl]; exact Bool.false_ne_true),
        if_pos rfl]
      dsimp only [twoDigits]
      rw [if_pos (by rw [hdb, hdc]; rfl)]
      simp only [Option.map_some']
      rw [hm, hx]
  · have hlistlen := congrArg List.length hl
    simp only [List.length_append, List.length_cons] at hlistlen
    rcases l with _ | ⟨c1, _ | ⟨c2, _ | ⟨c3, _ | ⟨c4, _ | ⟨c5, l'⟩⟩⟩⟩⟩
    · exfalso; simp only [List.length_nil] at hlistlen; omega
    · exfalso; simp only [List.length_cons, List.length_nil] at hlistlen; omega
    · exfalso; simp only [List.length_cons, List.length_nil] at hlistlen; omega
    · exfalso; simp only [List.length_cons, List.length_nil] at hlistlen; omega
    · exfalso; simp only [List.length_cons, List.length_nil] at hlistlen; omega
    · simp only [List.cons_append] at hl
      injection hl with h1 hl2
      injection hl2 with h2 hl3
      injection hl3 with h3 hl4
      injection hl4 with h4 hl5
      injection hl5 with h5 hl6
      subst h1
      subst h2
      subst h3
      subst h4
      subst h5
      refine ⟨l', hl6.symm, ?_⟩
      dsimp only [matchTS]
      rw [if_pos hda, if_pos hda2, if_pos rfl]
      dsimp only [twoDigits]
      rw [if_pos (by rw [hdb, hdc]; rfl)]
      simp only [Option.map_some']
      rw [hm, hx]

theorem matchSep_reflect {l s : List Char} {ρ : List Char}
    (h : matchSep (l ++ s) = some ρ) (hlen : s.length ≤ ρ.length) :
    ∃ r, ρ = r ++ s ∧ matchSep l = some r := by
  rcases matchSep_shape h with ⟨c, hl, hc⟩ | ⟨c, o, hl, hc, ho⟩
  · have hlistlen := congrArg List.length hl
    simp only [List.length_append, List.length_cons] at hlistlen
    rcases l with _ | ⟨c', l'⟩
    · exfalso; simp only [List.length_nil] at hlistlen; omega
    · simp only [List.cons_append] at hl
      injection hl with h1 hl2
      subst h1
      refine ⟨l', hl2.symm, ?_⟩
      rcases hc with rfl | rfl | rfl <;> rfl
  · have hlistlen := congrArg List.length hl
    simp only [List.length_append, List.length_cons] at hlistlen
    rcases l with _ | ⟨c', _ | ⟨o', l'⟩⟩
    · exfalso; simp only [List.length_nil] at hlistlen; omega
    · exfalso; simp only [List.length_cons, List.length_nil] at hlistlen; omega
    · simp only [List.cons_append] at hl
      injection hl with h1 hl2
      injection hl2 with h2 hl3
      subst h1
      subst h2
      refine ⟨l', hl3.symm, ?_⟩
      rcases hc with rfl | rfl <;> rcases ho with rfl | rfl <;> rfl

theorem tryMatch_reflect {p s : List Char} {a b : ℕ} {ρ : List Char}
    (h : tryMatch (p ++ s) = some (a, b, ρ)) (hlen : s.length ≤ ρ.length) :
    ∃ r, ρ = r ++ s ∧ tryMatch p = some (a, b, r) := by
  obtain ⟨m1, s1, R1, R3, m2, s2, h1, h2, h3, ha, hb⟩ := tryMatch_pieces h
  have lenTS2 := matchTS_len h3
  have lenB := dropSpaces_len R3
  have lenSep := matchSep_len h2
  have lenA := dropSpaces_len R1
  have hR1 : s.length ≤ R1.length := by omega
  obtain ⟨r1, hR1eq, h1'⟩ := matchTS_reflect h1 hR1
  subst hR1eq
  have hr1ne : dropSpaces r1 ≠ [] := by
    intro he
    rw [dropSpaces_append_nil s he] at h2
    have := matchSep_len h2
    have := dropSpaces_len s
    omega
  rw [dropSpaces_append_ne s hr1ne] at h2
  have hR3 : s.length ≤ R3.length := by omega
  obtain ⟨r3, hR3eq, h2'⟩ := matchSep_reflect h2 hR3
  subst hR3eq
  have hr3ne : dropSpaces r3 ≠ [] := by
    intro he
    rw [dropSpaces_append_nil s he] at h3
    have := matchTS_len h3
    have := dropSpaces_len s
    omega
  rw [dropSpaces_append_ne s hr3ne] at h3
  obtain ⟨r5, hρeq, h3'⟩ := matchTS_reflect h3 hlen
  refine ⟨r5, hρeq, ?_⟩
  unfold tryMatch
  rw [h1']
  dsimp only
  rw [h2']
  dsimp only
  rw [h3']
  dsimp only
  rw [ha, hb]

theorem matchTS_suffix {l : List Char} {m x : ℕ} {r : List Char}
    (h : matchTS l = some (m, x, r)) : r <:+ l := by
  rcases matchTS_shape h with ⟨a, b, c, hl, _⟩ | ⟨a, a2, b, c, hl, _⟩
  · exact ⟨[a, ':', b, c], by rw [hl]; rfl⟩
  · exact ⟨[a, a2, ':', b, c], by rw [hl]; rfl⟩

theorem matchSep_suffix {l : List Char} {r : List Char}
    (h : matchSep l = some r) : r <:+ l := by
  rcases matchSep_shape h with ⟨c, hl, _⟩ | ⟨c, o, hl, _⟩
  · exact ⟨[c], by rw [hl]; rfl⟩
  · exact ⟨[c, o], by rw [hl]; rfl⟩

theorem tryMatch_none_of_TS {l : List Char} (h : matchTS l = none) :
    tryMatch l = none := by
  unfold tryMatch
  rw [h]

theorem suffix_decomp {α : Type} {xs ys v : List α} (hv : v <:+ xs ++ ys)
    (hlen : ys.length ≤ v.length) :
    v = xs.drop (xs.length + ys.length - v.length) ++ ys := by
  obtain ⟨u, hu⟩ := hv
  have hul : u.length + v.length = xs.length + ys.length := by
    have := congrArg List.length hu
    simpa [List.length_append] using this
  have hule : u.length ≤ xs.length := by omega
  have h1 : v = (xs ++ ys).drop u.length := by
    rw [← hu, List.drop_left]
  have hidx : xs.length + ys.length - v.length = u.length := by omega
  rw [hidx, h1, List.drop_append_of_le_length hule]

theorem head_space_of_gt_dropSpaces {l v : List Char} (hv : v <:+ l)
    (hlen : (dropSpaces l).length < v.length) :
    ∃ c w, v = c :: w ∧ jsSpace c = true := by
  have hsplit : l.takeWhile jsSpace ++ dropSpaces l = l :=
    List.takeWhile_append_dropWhile jsSpace l
  have hv' : v <:+ l.takeWhile jsSpace ++ dropSpaces l := by
    rw [hsplit]
    exact hv
  have hd := suffix_decomp hv' (le_of_lt hlen)
  have hvle : v.length ≤ l.length := hv.length_le
  have hlsplit : (l.takeWhile jsSpace).length + (dropSpaces l).length = l.length := by
    have := congrArg List.length hsplit
    simpa [List.length_append] using this
  have hlt : (l.takeWhile jsSpace).length + (dropSpaces l).length - v.length <
      (l.takeWhile jsSpace).length := by omega
  rcases hdrop : (l.takeWhile jsSpace).drop
      ((l.takeWhile jsSpace).length + (dropSpaces l).length - v.length) with _ | ⟨c, w⟩
  · exfalso
    have := congrArg List.length hdrop
    simp only [List.length_drop, List.length_nil] at this
    omega
  · refine ⟨c, w ++ dropSpaces l, ?_, ?_⟩
    · rw [hd, hdrop, List.cons_append]
    · have hc : c ∈ l.takeWhile jsSpace :=
        List.drop_subset _ _ (by rw [hdrop]; exact List.mem_cons_self c w)
      exact List.mem_takeWhile_imp hc

theorem sep_region_head {R1 R3 : List Char}
    (h2 : matchSep (dropSpaces R1) = some R3) :
    ∃ hh R1', R1 = hh :: R1' ∧ isDigitChar hh = false ∧ hh ≠ ':' := by
  rcases R1 with _ | ⟨hh, R1'⟩
  · rw [show dropSpaces [] = [] from rfl] at h2
    exact Option.noConfusion h2
  refine ⟨hh, R1', rfl, ?_⟩
  by_cases hs : jsSpace hh = true
  · exact ⟨jsSpace_not_digit hs, fun he => absurd (he ▸ hs) (by decide)⟩
  · simp only [dropSpaces, List.dropWhile_cons, if_neg hs] at h2
    rcases matchSep_shape h2 with ⟨c, hA, hcs⟩ | ⟨c, o, hA, hcs, hos⟩
    · injection hA with h1 _
      subst h1
      rcases hcs with rfl | rfl | rfl <;> exact ⟨rfl, by decide⟩
    · injection hA with h1 _
      subst h1
      rcases hcs with rfl | rfl <;> exact ⟨rfl, by decide⟩

/-- No successful attempt of the timestamp-pair pattern can start strictly
inside a successful match and end strictly before that match's end: the
later attempt either fails outright (its head is whitespace, a separator
character or a colon, or its digits run into a non-colon), reproduces the
same tail (starting at the second digit of a two-digit minute), or must
consume past the outer match's end. -/
theorem tryMatch_no_nested {t : List Char} {a b : ℕ} {r : List Char}
    (h : tryMatch t = some (a, b, r)) {v : List Char} (hv : v <:+ t)
    (hvlen : v.length < t.length) {m x : ℕ} {ρ : List Char}
    (hin : tryMatch v = some (m, x, ρ)) (hρ : r.length < ρ.length) : False := by
  obtain ⟨m1, s1, R1, R3, m2, s2, h1, h2, h3, ha, hb⟩ := tryMatch_pieces h
  have lenIn := tryMatch_min hin
  have len3 := matchTS_len h3
  have lenB := dropSpaces_len R3
  have len2 := matchSep_len h2
  have lenA := dropSpaces_len R1
  have len1 := matchTS_len h1
  have hR1t : R1 <:+ t := matchTS_suffix h1
  have hAR1 : dropSpaces R1 <:+ R1 := dropSpaces_suffix R1
  have hR3A : R3 <:+ dropSpaces R1 := matchSep_suffix h2
  have hBR3 : dropSpaces R3 <:+ R3 := dropSpaces_suffix R3
  have hAt : dropSpaces R1 <:+ t := hAR1.trans hR1t
  have hR3t : R3 <:+ t := hR3A.trans hAt
  have hBt : dropSpaces R3 <:+ t := hBR3.trans hR3t
  by_cases c1 : v.length ≤ (dropSpaces R3).length
  · omega
  push_neg at c1
  by_cases c2 : v.length ≤ R3.length
  · have hvR3 : v <:+ R3 := List.suffix_of_suffix_length_le hv hR3t c2
    obtain ⟨c, w, hvc, hc⟩ := head_space_of_gt_dropSpaces hvR3 c1
    rw [hvc, tryMatch_none_head w (jsSpace_not_digit hc)] at hin
    exact Option.noConfusion hin
  push_neg at c2
  by_cases c3 : v.length ≤ (dropSpaces R1).length
  · have hvA : v <:+ dropSpaces R1 := List.suffix_of_suffix_length_le hv hAt c3
    rcases matchSep_shape h2 with ⟨c, hA, hcs⟩ | ⟨c, o, hA, hcs, hos⟩
    · have hlenA : (dropSpaces R1).length = R3.length + 1 := by
        rw [hA]; simp
      have hveq : v = dropSpaces R1 := hvA.eq_of_length (by omega)
      rw [hveq, hA] at hin
      have hcd : isDigitChar c = false := by
        rcases hcs with rfl | rfl | rfl <;> rfl
      rw [tryMatch_none_head R3 hcd] at hin
      exact Option.noConfusion hin
    · have hlenA : (dropSpaces R1).length = R3.length + 2 := by
        rw [hA]; simp
      by_cases hve : v.length = (dropSpaces R1).length
      · have hveq : v = dropSpaces R1 := hvA.eq_of_length hve
        rw [hveq, hA] at hin
        have hcd : isDigitChar c = false := by
          rcases hcs with rfl | rfl <;> rfl
        rw [tryMatch_none_head (o :: R3) hcd] at hin
        exact Option.noConfusion hin
      · have hoR3 : (o :: R3) <:+ dropSpaces R1 := by
          rw [hA]
          exact List.suffix_cons c (o :: R3)
        have hsub : v <:+ o :: R3 :=
          List.suffix_of_suffix_length_le hvA hoR3 (by simp; omega)
        have hveq : v = o :: R3 := hsub.eq_of_length (by simp; omega)
        rw [hveq] at hin
        have hod : isDigitChar o = false := by
          rcases hos with rfl | rfl <;> rfl
        rw [tryMatch_none_head R3 hod] at hin
        exact Option.noConfusion hin
  push_neg at c3
  by_cases c4 : v.length ≤ R1.length
  · have hvR1 : v <:+ R1 := List.suffix_of_suffix_length_le hv hR1t c4
    obtain ⟨c, w, hvc, hc⟩ := head_space_of_gt_dropSpaces hvR1 c3
    rw [hvc, tryMatch_none_head w (jsSpace_not_digit hc)] at hin
    exact Option.noConfusion hin
  push_neg at c4
  obtain ⟨hh, R1', hR1e, hhd, hhc⟩ := sep_region_head h2
  rcases matchTS_shape h1 with ⟨a1, b1, d1, hl, hda1, hdb1, hdd1, hm1, hx1⟩ |
    ⟨a1, a2, b1, d1, hl, hda1, hda2, hdb1, hdd1, hm1, hx1⟩
  · have htlen : t.length = R1.length + 4 := by
      rw [hl]; simp
    have hv' : v <:+ ([a1, ':', b1, d1] : List Char) ++ R1 := by
      rw [hl] at hv
      exact hv
    have hdec := suffix_decomp hv' (by omega)
    have hk : v.length = R1.length + 1 ∨ v.length = R1.length + 2 ∨
        v.length = R1.length + 3 := by omega
    rcases hk with hk | hk | hk
    · have hn : ([a1, ':', b1, d1] : List Char).length + R1.length - v.length = 3 := by
        simp only [List.length_cons, List.length_nil]
        omega
      rw [hn, show ∀ (R : List Char), ([a1, ':', b1, d1] : List Char).drop 3 ++ R =
        d1 :: R from fun R => rfl] at hdec
      rw [hdec, hR1e] at hin
      have hmv : matchTS (d1 :: hh :: R1') = none := by
        dsimp only [matchTS]
        rw [if_pos hdd1, if_neg (by rw [hhd]; exact Bool.false_ne_true), if_neg hhc]
      rw [tryMatch_none_of_TS hmv] at hin
      exact Option.noConfusion hin
    · have hn : ([a1, ':', b1, d1] : List Char).length + R1.length - v.length = 2 := by
        simp only [List.length_cons, List.length_nil]
        omega
      rw [hn, show ∀ (R : List Char), ([a1, ':', b1, d1] : List Char).drop 2 ++ R =
        b1 :: d1 :: R from fun R => rfl] at hdec
      rw [hdec, hR1e] at hin
      have hmv : matchTS (b1 :: d1 :: hh :: R1') = none := by
        dsimp only [matchTS]
        rw [if_pos hdb1, if_pos hdd1, if_neg hhc]
      rw [tryMatch_none_of_TS hmv] at hin
      exact Option.noConfusion hin
    · have hn : ([a1, ':', b1, d1] : List Char).length + R1.length - v.length = 1 := by
        simp only [List.length_cons, List.length_nil]
        omega
      rw [hn, show ∀ (R : List Char), ([a1, ':', b1, d1] : List Char).drop 1 ++ R =
        ':' :: b1 :: d1 :: R from fun R => rfl] at hdec
      rw [hdec] at hin
      rw [tryMatch_none_head (b1 :: d1 :: R1) (show isDigitChar ':' = false from rfl)] at hin
      exact Option.noConfusion hin
  · have htlen : t.length = R1.length + 5 := by
      rw [hl]; simp
    have hv' : v <:+ ([a1, a2, ':', b1, d1] : List Char) ++ R1 := by
      rw [hl] at hv
      exact hv
    have hdec := suffix_decomp hv' (by omega)
    have hk : v.length = R1.length + 1 ∨ v.length = R1.length + 2 ∨
        v.length = R1.length + 3 ∨ v.length = R1.length + 4 := by omega
    rcases hk with hk | hk | hk | hk
    · have hn : ([a1, a2, ':', b1, d1] : List Char).length + R1.length - v.length = 4 := by
        simp only [List.length_cons, List.length_nil]
        omega
      rw [hn, show ∀ (R : List Char), ([a1, a2, ':', b1, d1] : List Char).drop 4 ++ R =
        d1 :: R from fun R => rfl] at hdec
      rw [hdec, hR1e] at hin
      have hmv : matchTS (d1 :: hh :: R1') = none := by
        dsimp only [matchTS]
        rw [if_pos hdd1, if_neg (by rw [hhd]; exact Bool.false_ne_true), if_neg hhc]
      rw [tryMatch_none_of_TS hmv] at hin
      exact Option.noConfusion hin
    · have hn : ([a1, a2, ':', b1, d1] : List Char).length + R1.length - v.length = 3 := by
        simp only [List.length_cons, List.length_nil]
        omega
      rw [hn, show ∀ (R : List Char), ([a1, a2, ':', b1, d1] : List Char).drop 3 ++ R =
        b1 :: d1 :: R from fun R => rfl] at hdec
      rw [hdec, hR1e] at hin
      have hmv : matchTS (b1 :: d1 :: hh :: R1') = none := by
        dsimp only [matchTS]
        rw [if_pos hdb1, if_pos hdd1, if_neg hhc]
      rw [tryMatch_none_of_TS hmv] at hin
      exact Option.noConfusion hin
    · have hn : ([a1, a2, ':', b1, d1] : List Char).length + R1.length - v.length = 2 := by
        simp only [List.length_cons, List.length_nil]
        omega
      rw [hn, show ∀ (R : List Char), ([a1, a2, ':', b1, d1] : List Char).drop 2 ++ R =
        ':' :: b1 :: d1 :: R from fun R => rfl] at hdec
      rw [hdec] at hin
      rw [tryMatch_none_head (b1 :: d1 :: R1) (show isDigitChar ':' = false from rfl)] at hin
      exact Option.noConfusion hin
    · have hn : ([a1, a2, ':', b1, d1] : List Char).length + R1.length - v.length = 1 := by
        simp only [List.length_cons, List.length_nil]
        omega
      rw [hn, show ∀ (R : List Char), ([a1, a2, ':', b1, d1] : List Char).drop 1 ++ R =
        a2 :: ':' :: b1 :: d1 :: R from fun R => rfl] at hdec
      rw [hdec] at hin
      have hTSv : matchTS (a2 :: ':' :: b1 :: d1 :: R1) =
          some (a2.toNat - 48, 10 * (b1.toNat - 48) + (d1.toNat - 48), R1) := by
        dsimp only [matchTS]
        rw [if_pos hda2,
          if_neg (by rw [show isDigitChar ':' = false from rfl]; exact Bool.false_ne_true),
          if_pos rfl]
        dsimp only [twoDigits]
        rw [if_pos (by rw [hdb1, hdd1]; rfl)]
        simp only [Option.map_some']
      have htv : tryMatch (a2 :: ':' :: b1 :: d1 :: R1) =
          some ((a2.toNat - 48) * 60 + (10 * (b1.toNat - 48) + (d1.toNat - 48)),
            m2 * 60 + s2, r) := by
        unfold tryMatch
        rw [hTSv]
        dsimp only
        rw [h2]
        dsimp only
        rw [h3]
      rw [htv] at hin
      injection hin with h'
      injection h' with hmm h''
      injection h'' with hxx hrρ
      rw [hrρ] at hρ
      exact lt_irrefl _ hρ

theorem scanFuel_congr : ∀ (m n : ℕ) (l : List Char), l.length ≤ m →
    l.length ≤ n → scanFuel m l = scanFuel n l := by
  intro m
  induction m with
  | zero =>
    intro n l hm _
    have hl : l = [] := List.length_eq_zero.mp (Nat.le_zero.mp hm)
    subst hl
    cases n <;> rfl
  | succ m ih =>
    intro n l hm hn
    rcases l with _ | ⟨c, q⟩
    · cases n <;> rfl
    · rcases n with _ | n'
      · exact absurd hn (by simp)
      · dsimp only [scanFuel]
        rcases htm : tryMatch (c :: q) with _ | ⟨⟨a, b, r5⟩⟩ <;> dsimp only
        · have hq : q.length ≤ m := by
            simp only [List.length_cons] at hm
            omega
          have hq' : q.length ≤ n' := by
            simp only [List.length_cons] at hn
            omega
          exact ih n' q hq hq'
        · have hr5 := tryMatch_min htm
          simp only [List.length_cons] at hm hn hr5
          congr 1
          exact ih n' r5 (by omega) (by omega)

theorem scanMatches_cons (c : Char) (q : List Char) :
    scanMatches (c :: q) =
      match tryMatch (c :: q) with
      | some (a, b, r5) => (a, b) :: scanMatches r5
      | none => scanMatches q := by
  show scanFuel (q.length + 1) (c :: q) = _
  dsimp only [scanFuel]
  rcases htm : tryMatch (c :: q) with _ | ⟨⟨a, b, r5⟩⟩ <;> dsimp only
  · rfl
  · have hr5 := tryMatch_min htm
    simp only [List.length_cons] at hr5
    congr 1
    exact scanFuel_congr q.length r5.length r5 (by omega) (le_refl _)

theorem scanMatches_nil_of_fails {l : List Char}
    (h : ∀ w, w <:+ l → tryMatch w = none) : scanMatches l = [] := by
  induction l with
  | nil => rfl
  | cons c q ih =>
    rw [scanMatches_cons, h (c :: q) (List.suffix_refl _)]
    exact ih (fun w hw => h w (hw.trans (List.suffix_cons c q)))

theorem scanMatches_mem_append : ∀ (n : ℕ) (p : List Char), p.length ≤ n →
    ∀ (s : List Char) (y : ℕ × ℕ), y ∈ scanMatches p → y ∈ scanMatches (p ++ s) := by
  intro n
  induction n with
  | zero =>
    intro p hp s y hy
    have hl : p = [] := List.length_eq_zero.mp (Nat.le_zero.mp hp)
    subst hl
    exact absurd hy (List.not_mem_nil y)
  | succ n ih =>
    intro p hp s y hy
    rcases p with _ | ⟨c, q⟩
    · exact absurd hy (List.not_mem_nil y)
    rw [scanMatches_cons] at hy
    rcases htm : tryMatch (c :: q) with _ | ⟨⟨a, b, r5⟩⟩
    · rw [htm] at hy
      dsimp only at hy
      rcases htm2 : tryMatch ((c :: q) ++ s) with _ | ⟨⟨a2, b2, ρ⟩⟩
      · rw [List.cons_append] at htm2 ⊢
        rw [scanMatches_cons, htm2]
        dsimp only
        have hq : q.length ≤ n := by
          simp only [List.length_cons] at hp
          omega
        exact ih q hq s y hy
      · by_cases hρs : s.length ≤ ρ.length
        · obtain ⟨r0, _, htmq⟩ := tryMatch_reflect htm2 hρs
          rw [htmq] at htm
          exact Option.noConfusion htm
        · push_neg at hρs
          have hqnil : scanMatches q = [] := by
            apply scanMatches_nil_of_fails
            intro w hw
            rcases hw' : tryMatch w with _ | ⟨⟨mw, xw, ρw⟩⟩
            · rfl
            · exfalso
              have h5 := tryMatch_append (s := s) hw'
              have hws : (w ++ s) <:+ (c :: q) ++ s := by
                obtain ⟨u, hu⟩ := hw
                exact ⟨c :: u, by
                  rw [List.cons_append, ← List.append_assoc, hu, List.cons_append]⟩
              have hwl : w.length ≤ q.length := hw.length_le
              have hwlen : (w ++ s).length < ((c :: q) ++ s).length := by
                simp only [List.length_append, List.length_cons]
                omega
              have hρw : ρ.length < (ρw ++ s).length := by
                simp only [List.length_append]
                omega
              exact tryMatch_no_nested htm2 hws hwlen h5 hρw
          rw [hqnil] at hy
          exact absurd hy (List.not_mem_nil y)
    · rw [htm] at hy
      dsimp only at hy
      have htm2 := tryMatch_append (s := s) htm
      rw [List.cons_append] at htm2 ⊢
      rw [scanMatches_cons, htm2]
      dsimp only
      rcases List.mem_cons.mp hy with rfl | hy5
      · exact List.mem_cons_self _ _
      · have hr5 := tryMatch_min htm
        simp only [List.length_cons] at hr5 hp
        exact List.mem_cons_of_mem _ (ih r5 (by omega) s y hy5)

theorem pushRegion_mem (acc : List (ℕ × ℕ)) (mm y : ℕ × ℕ) :
    y ∈ pushRegion acc mm ↔ y ∈ acc ∨ (y = mm ∧ mm.1 < mm.2) := by
  unfold pushRegion
  by_cases hle : mm.2 ≤ mm.1
  · rw [if_pos hle]
    constructor
    · exact Or.inl
    · rintro (hy | ⟨rfl, hlt⟩)
      · exact hy
      · omega
  · rw [if_neg hle]
    by_cases hc : acc.contains mm = true
    · rw [if_pos hc]
      constructor
      · exact Or.inl
      · rintro (hy | ⟨rfl, _⟩)
        · exact hy
        · exact List.elem_iff.mp hc
    · rw [if_neg hc]
      constructor
      · intro hy
        rcases List.mem_append.mp hy with hy | hy
        · exact Or.inl hy
        · exact Or.inr ⟨List.mem_singleton.mp hy, by omega⟩
      · rintro (hy | ⟨rfl, _⟩)
        · exact List.mem_append.mpr (Or.inl hy)
        · exact List.mem_append.mpr (Or.inr (List.mem_singleton.mpr rfl))

theorem foldl_pushRegion_mem : ∀ (l : List (ℕ × ℕ)) (acc : List (ℕ × ℕ)) (y : ℕ × ℕ),
    y ∈ l.foldl pushRegion acc ↔ y ∈ acc ∨ (y ∈ l ∧ y.1 < y.2) := by
  intro l
  induction l with
  | nil => intro acc y; simp
  | cons mm l ih =>
    intro acc y
    rw [List.foldl_cons, ih, pushRegion_mem]
    constructor
    · rintro ((hy | ⟨rfl, hlt⟩) | ⟨hyl, hlt⟩)
      · exact Or.inl hy
      · exact Or.inr ⟨List.mem_cons_self _ _, hlt⟩
      · exact Or.inr ⟨List.mem_cons_of_mem _ hyl, hlt⟩
    · rintro (hy | ⟨hyc, hlt⟩)
      · exact Or.inl (Or.inl hy)
      · rcases List.mem_cons.mp hyc with rfl | hyl
        · exact Or.inl (Or.inr ⟨rfl, hlt⟩)
        · exact Or.inr ⟨hyl, hlt⟩

theorem parseAiRegions_mem (text : List Char) (y : ℕ × ℕ) :
    y ∈ parseAiRegions text ↔ y ∈ scanMatches text ∧ y.1 < y.2 := by
  unfold parseAiRegions
  rw [foldl_pushRegion_mem]
  simp

theorem aiStep_eq (regions : List (ℕ × ℕ)) (text : List Char) :
    aiStep regions text = parseAiRegions text := by
  unfold aiStep
  by_cases he : text = []
  · subst he
    rw [if_pos rfl]
    rfl
  · rw [if_neg he]
    by_cases hd : parseAiRegions text ≠ regions
    · rw [if_pos hd]
    · rw [if_neg hd]
      exact (not_not.mp hd).symm

/-- C5: (a) idempotence: after any sequence of runs of the AI parsing effect
(arbitrary intermediate partial texts, arbitrary starting region state)
ending with a run on the final text, the region state equals the single-run
parse of the final text - so re-running on the same final text yields the
same final region set regardless of how many intermediate partial parses
occurred; (b) prefix safety: a region parsed from any prefix `p` of a text
is also parsed from the extended text `p ++ s` - no region of a partial
text is absent once the text is extended. -/
theorem ai_parse_idempotent_monotone :
    (∀ (init : List (ℕ × ℕ)) (ts : List (List Char)) (t : List Char),
      (ts ++ [t]).foldl aiStep init = parseAiRegions t) ∧
    (∀ (p s : List Char) (y : ℕ × ℕ),
      y ∈ parseAiRegions p → y ∈ parseAiRegions (p ++ s)) := by
  constructor
  · intro init ts t
    rw [List.foldl_append, List.foldl_cons, List.foldl_nil]
    exact aiStep_eq _ t
  · intro p s y hy
    rw [parseAiRegions_mem] at hy ⊢
    exact ⟨scanMatches_mem_append p.length p (le_refl _) s y hy.1, hy.2⟩

/-- Witness for C5 on the spec's example scenario: `"anomaly at 0:0"`
parses to no region; once the text is completed to
`"anomaly at 0:02 - 0:05"` the region `(2, 5)` appears, survives any
further extension of the text, and the final state after the two
incremental effect runs equals the single-run parse. -/
theorem ai_parse_idempotent_monotone_witness :
    parseAiRegions "anomaly at 0:0".data = [] ∧
    (2, 5) ∈ parseAiRegions "anomaly at 0:02 - 0:05".data ∧
    (2, 5) ∈ parseAiRegions ("anomaly at 0:02 - 0:05".data ++ " and more".data) ∧
    List.foldl aiStep [] (["anomaly at 0:0".data] ++ ["anomaly at 0:02 - 0:05".data]) =
      parseAiRegions "anomaly at 0:02 - 0:05".data :=
  ⟨by decide, by decide,
   ai_parse_idempotent_monotone.2 "anomaly at 0:02 - 0:05".data " and more".data
     (2, 5) (by decide),
   ai_parse_idempotent_monotone.1 [] ["anomaly at 0:0".data]
     "anomaly at 0:02 - 0:05".data⟩

/-- C10: the AI timestamp parser accepts any two-digit seconds field 00-99
without rejecting or clamping seconds >= 60: for any digit characters
`c d`, the text `0:cd - 1:50` produces exactly the region
`(10c + d, 110)` (converted as minutes*60 + seconds); in particular
`"0:99 - 1:50"` produces the region with start 99 and end 110. -/
theorem ai_seconds_unvalidated :
    (∀ c d : Char, isDigitChar c = true → isDigitChar d = true →
      parseAiRegions ('0' :: ':' :: c :: d :: " - 1:50".data) =
        [(10 * (c.toNat - 48) + (d.toNat - 48), 110)]) ∧
    parseAiRegions "0:99 - 1:50".data = [(99, 110)] := by
  constructor
  · intro c d hc hd
    have hTS1 : matchTS ('0' :: ':' :: c :: d :: " - 1:50".data) =
        some (0, 10 * (c.toNat - 48) + (d.toNat - 48), " - 1:50".data) := by
      dsimp only [matchTS]
      rw [if_pos (show isDigitChar '0' = true from rfl),
        if_neg (by rw [show isDigitChar ':' = false from rfl]; exact Bool.false_ne_true),
        if_pos rfl]
      dsimp only [twoDigits]
      rw [if_pos (by rw [hc, hd]; rfl)]
      rfl
    have htm : tryMatch ('0' :: ':' :: c :: d :: " - 1:50".data) =
        some (0 * 60 + (10 * (c.toNat - 48) + (d.toNat - 48)), 1 * 60 + 50, []) := by
      unfold tryMatch
      rw [hTS1]
      dsimp only
      rw [show matchSep (dropSpaces " - 1:50".data) = some " 1:50".data from rfl]
      dsimp only
      rw [show matchTS (dropSpaces " 1:50".data) = some (1, 50, []) from rfl]
    have hscan : scanMatches ('0' :: ':' :: c :: d :: " - 1:50".data) =
        [(0 * 60 + (10 * (c.toNat - 48) + (d.toNat - 48)), 1 * 60 + 50)] := by
      rw [scanMatches_cons, htm]
      rfl
    have hbc := digit_toNat_bounds hc
    have hbd := digit_toNat_bounds hd
    have hpush : pushRegion []
        (0 * 60 + (10 * (c.toNat - 48) + (d.toNat - 48)), 1 * 60 + 50) =
        [(0 * 60 + (10 * (c.toNat - 48) + (d.toNat - 48)), 1 * 60 + 50)] := by
      unfold pushRegion
      rw [if_neg (by dsimp only; omega)]
      rfl
    unfold parseAiRegions
    rw [hscan, List.foldl_cons, List.foldl_nil, hpush]
    rw [show 0 * 60 + (10 * (c.toNat - 48) + (d.toNat - 48)) =
      10 * (c.toNat - 48) + (d.toNat - 48) from by omega]
  · decide

/-- Witness for C10 at the digits 9, 9 - the spec's `"0:99 - 1:50"`
example. -/
theorem ai_seconds_unvalidated_witness :
    isDigitChar '9' = true ∧
    parseAiRegions ('0' :: ':' :: '9' :: '9' :: " - 1:50".data) = [(99, 110)] :=
  ⟨by decide,
   (ai_seconds_unvalidated.1 '9' '9' (by decide) (by decide)).trans (by decide)⟩

/-- C4 (amended): every region produced by the AI timestamp parser satisfies
end > start (the effect discards any matched pair with end <= start); the
clinical label parser performs no such validation, so the invariant holds
only for the AI-derived regions (see the counterexample for the clinical
side). -/
theorem region_invariant_amended (text : List Char) (y : ℕ × ℕ)
    (hy : y ∈ parseAiRegions text) :
    (aiRegionData y).start < (aiRegionData y).stop := by
  have h := (parseAiRegions_mem text y).mp hy
  have h2 := h.2
  show (y.1 : ℚ) < (y.2 : ℚ)
  exact_mod_cast h2

/-- Witness for C4 (amended) on a concrete AI region. -/
theorem region_invariant_amended_witness :
    (2, 5) ∈ parseAiRegions "0:02 - 0:05".data ∧
    (aiRegionData (2, 5)).start < (aiRegionData (2, 5)).stop :=
  ⟨by decide, region_invariant_amended "0:02 - 0:05".data (2, 5) (by decide)⟩

